import Mathlib

/-!
Shallow embedding of the extraction subsystem of the report-parsing
program (`src/parse.rs` with its data structures from `src/main.rs`).

The HTML document is modelled as an already-parsed node tree (the actual
HTML parsing is done by the external `scraper`/`html5ever` crates and is
out of scope).  Machine floats are abstracted: every parsing function is
parameterised by the external standard-library float parser
`fp : String → Option S` (Rust's `str::parse::<f32>`, external library
code), so all theorems hold for every such parser.  Errors are modelled
as `Except String`, carrying the very message strings of the source;
`anyhow`'s `context` is modelled by prefixing the context label.
-/

namespace Mjai

/-- The data of an HTML element node: tag name, optional `id` attribute,
class list and the remaining attributes, as exposed by
`scraper::node::Element` (`value().id()`, `has_class`, `attr`). -/
structure ElementData where
  name : String
  idAttr : Option String
  classes : List String
  attrs : List (String × String)
deriving DecidableEq, Repr

/-- An HTML DOM node: a text node, an element with ordered children, or
any other node kind (comment, doctype, processing instruction), which the
parser never inspects beyond skipping it. -/
inductive Node where
  | text (s : String)
  | element (data : ElementData) (children : List Node)
  | other
deriving Repr

/-- The ordered child list of a node (`NodeRef::children`): only element
nodes have children in this model. -/
def Node.childNodes : Node → List Node
  | .element _ children => children
  | _ => []

/-- `Node::is_element`. -/
def Node.isElement : Node → Bool
  | .element _ _ => true
  | _ => false

/-- `Node::as_text`: the contents of a text node. -/
def Node.asText : Node → Option String
  | .text s => some s
  | _ => none

/-- `Node::as_element`: the element data of an element node. -/
def Node.asElem : Node → Option ElementData
  | .element e _ => some e
  | _ => none

/-- Whether a node is an element with the given tag name. -/
def Node.nameIs (n : Node) (s : String) : Bool :=
  match n with
  | .element e _ => e.name == s
  | _ => false

/-- `Element::has_class` with `CaseSensitivity::CaseSensitive`. -/
def ElementData.hasClass (e : ElementData) (c : String) : Bool :=
  e.classes.contains c

/-- `Element::attr`: look up an attribute value by name. -/
def ElementData.attr (e : ElementData) (k : String) : Option String :=
  (e.attrs.find? (fun a => a.1 == k)).map (·.2)

/-! ### String primitives

Models of the external Rust standard-library string functions the
parser uses (`str::trim`, `str::ends_with`, `str::is_empty`), written
over the underlying character list so that they are structurally
recursive and compute definitionally. -/

/-- `str::trim`: remove leading and trailing whitespace. -/
def strTrim (s : String) : String :=
  ⟨((s.data.dropWhile Char.isWhitespace).reverse.dropWhile
      Char.isWhitespace).reverse⟩

/-- `str::is_empty`. -/
def strIsEmpty (s : String) : Bool :=
  s.data.isEmpty

/-- `str::ends_with` on a string pattern. -/
def strEndsWith (s post : String) : Bool :=
  post.data.isSuffixOf s.data

/-! ### Result plumbing (`anyhow`) -/

/-- `Option::context(msg)`: an `Option` turned into a `Result`, the
`None` case becoming a fresh error with the given message. -/
def orErr : Option α → String → Except String α
  | some a, _ => .ok a
  | none, e => .error e

/-- `Result::context(msg)`: prefix the context label onto the causal
chain of an error, leaving successes untouched. -/
def withCtx : Except String α → String → Except String α
  | .ok a, _ => .ok a
  | .error e, c => .error (c ++ ": " ++ e)

/-- `Iterator::collect::<Result<Vec<_>>>` over a mapped list: evaluate
left to right, short-circuiting at the first error. -/
def collectResults (f : α → Except String β) : List α → Except String (List β)
  | [] => .ok []
  | x :: xs => do
    let y ← f x
    let ys ← collectResults f xs
    .ok (y :: ys)

/-- `Iterator::position`: the index of the first list entry satisfying
the predicate. -/
def position (p : α → Bool) : List α → Option Nat
  | [] => none
  | x :: xs => if p x then some 0 else (position p xs).map (· + 1)

/-! ### The structural query engine

`scraper`'s `Selector`/`select` machinery (external library): a selector
query over an element traverses its strict descendants in document order
and yields those matching the pattern.  A match can depend on the
element's ancestor chain (child combinators `>`) and on its 1-based
index among its parent's element children (`:nth-child`).  Each matched
node is returned together with that context, plus its following
siblings (used by `NodeRef::next_siblings` in `parse_role`). -/

/-- A matched element together with the traversal context needed by the
parser: its 1-based index among its parent's element children, its
ancestor chain (nearest first, each with its own element index), and its
following siblings in document order. -/
structure Located where
  node : Node
  elemIdx : Nat
  ancestors : List (Node × Nat)
  following : List Node
deriving Repr

/-- A compiled structural pattern: decides a match from the ancestor
chain (nearest first, with element indices), the candidate node and the
candidate's element index. -/
def Matcher : Type := List (Node × Nat) → Node → Nat → Bool

mutual
/-- Match a single node (and recursively its subtree) against a pattern;
`i` is the node's element index, `following` its following siblings. -/
def selectNode (m : Matcher) (anc : List (Node × Nat)) (n : Node) (i : Nat)
    (following : List Node) : List Located :=
  match n with
  | .element _ children =>
      (if m anc n i then [⟨n, i, anc, following⟩] else [])
        ++ selectChildren m ((n, i) :: anc) children 1
  | _ => []

/-- Match every node of a sibling list (and their subtrees) in document
order; `i` is the element index of the next element sibling. -/
def selectChildren (m : Matcher) (anc : List (Node × Nat)) (ns : List Node)
    (i : Nat) : List Located :=
  match ns with
  | [] => []
  | n :: rest =>
      selectNode m anc n i rest
        ++ selectChildren m anc rest (if n.isElement then i + 1 else i)
end

/-- `ElementRef::select`: query the strict descendants of the node at
the given traversal position (`scraper` skips the scope element
itself). -/
def selectUnder (m : Matcher) (node : Node) (idx : Nat)
    (anc : List (Node × Nat)) : List Located :=
  selectChildren m ((node, idx) :: anc) node.childNodes 1

/-- `Html::select`: query a whole document, given as its list of
top-level nodes (the root document node itself is never an element and
so never matches). -/
def selectDoc (m : Matcher) (doc : List Node) : List Located :=
  selectChildren m [] doc 1

/-! ### The four compiled selectors of `Parser::new` -/

/-- `html > body > section > h1.kyoku-heading`. -/
def roundHeadingM : Matcher := fun anc n _ =>
  match n, anc with
  | .element e _, (p1, _) :: (p2, _) :: (p3, _) :: _ =>
      e.name == "h1" && e.hasClass "kyoku-heading" && p1.nameIs "section"
        && p2.nameIs "body" && p3.nameIs "html"
  | _, _ => false

/-- `div:nth-child(4) > details:nth-child(2)`. -/
def roundToTurnM : Matcher := fun anc n i =>
  match n, anc with
  | .element e _, (p, pIdx) :: _ =>
      e.name == "details" && i == 2 && p.nameIs "div" && pIdx == 4
  | _, _ => false

/-- `span.role`. -/
def turnToRoleM : Matcher := fun _ n _ =>
  match n with
  | .element e _ => e.name == "span" && e.hasClass "role"
  | _ => false

/-- `details > table > tbody > tr`. -/
def turnToActionM : Matcher := fun anc n _ =>
  match n, anc with
  | .element e _, (p1, _) :: (p2, _) :: (p3, _) :: _ =>
      e.name == "tr" && p1.nameIs "tbody" && p2.nameIs "table"
        && p3.nameIs "details"
  | _, _ => false

/-! ### The data model (`parse.rs` types and the `main.rs` record tree)

In the source the two scores are `f32`; floats are abstracted here by a
type parameter `S` together with the external standard-library parser
`fp : String → Option S` modelling `str::parse::<f32>`. -/

/-- One symbolic constituent of an action: a trimmed text token or a
tile face identifier (`enum ActionElement`, with derived equality). -/
inductive ActionElement where
  | Text (s : String)
  | Tile (s : String)
deriving DecidableEq, Repr

/-- The symbolic identity of an action: an ordered sequence of elements
(`struct Action(Vec<ActionElement>)`, with derived equality). -/
structure Action where
  elems : List ActionElement
deriving DecidableEq, Repr

/-- The two scores attached to a scored action row
(`struct Action { q, pi }` in `main.rs`, named `ActionScores` in
`parse.rs`). -/
structure ActionScores (S : Type) where
  q : S
  pi : S
deriving DecidableEq, Repr

/-- One turn: the chosen-row indices of the player and of the reference
agent ("mortal"), and the ordered scored rows (`struct Turn`). -/
structure Turn (S : Type) where
  player : Nat
  mortal : Nat
  actions : List (ActionScores S)
deriving DecidableEq, Repr

/-- One round: its turns in document order (`struct Round`). -/
structure Round (S : Type) where
  turns : List (Turn S)
deriving DecidableEq, Repr

/-- The whole extracted record (`struct Parsed`). -/
structure Parsed (S : Type) where
  rounds : List (Round S)
deriving DecidableEq, Repr

/-! ### The parser (`impl Parser`) -/

/-- `Parser::parse_svg_action_element`: an `svg` element must carry
class `tile`; its first element child must be a `use` element carrying
class `face`; the decoded value is that child's `href` attribute. -/
def parse_svg_action_element (e : ElementData) (children : List Node) :
    Except String String :=
  if e.name != "svg" then .error "element name is not svg"
  else if !e.hasClass "tile" then .error "element class is not tile"
  else do
    let child ← orErr (children.findSome? Node.asElem) "no child"
    if child.name != "use" then .error "element name is not use"
    else if !child.hasClass "face" then .error "element class is not face"
    else orErr (child.attr "href") "no href attribute"

/-- The `filter_map` + `collect::<Result<_>>` loop inside
`Parser::parse_action`: keep non-whitespace text nodes (trimmed) and
`svg` elements (decoded to tile faces), skip everything else,
short-circuiting on the first `svg` decoding error. -/
def collectActionElements : List Node → Except String (List ActionElement)
  | [] => .ok []
  | n :: rest =>
    match n with
    | .text t =>
      let t := strTrim t
      if strIsEmpty t then collectActionElements rest
      else
        match collectActionElements rest with
        | .error err => .error err
        | .ok r => .ok (.Text t :: r)
    | .element e children =>
      if e.name == "svg" then
        match withCtx (parse_svg_action_element e children)
          "parse svg action element" with
        | .error err => .error err
        | .ok href =>
          match collectActionElements rest with
          | .error err => .error err
          | .ok r => .ok (.Tile href :: r)
      else collectActionElements rest
    | .other => collectActionElements rest

/-- `Parser::parse_action`: resolve the symbolic action identity from an
ordered node sequence; an empty filtered result is an error. -/
def parse_action (nodes : List Node) : Except String Action := do
  let action_elements ← collectActionElements nodes
  if action_elements.isEmpty then .error "empty action"
  else .ok ⟨action_elements⟩

/-- `Parser::parse_action_score_part`: the node must be a `span` element
carrying the expected class, with exactly one child, which must be a
text node; the decoded value is that text. -/
def parse_action_score_part (node : Node) (expected_class : String) :
    Except String String :=
  match node with
  | .element e children =>
    if e.name != "span" then .error "element is not span"
    else if !e.hasClass expected_class then .error "missing expected class"
    else
      match children with
      | [] => .error "no children"
      | [c] => orErr c.asText "child is not text"
      | _ :: _ :: _ => .error "unexpected more children"
  | _ => .error "node is not element"

section
variable {S : Type} (fp : String → Option S)

/-- `Parser::parse_action_score`: take the first two child nodes (all
children, not only elements, and with no check that there are no more),
decode them as the `int` and `frac` spans, require the integer part to
end with the `.` separator, concatenate verbatim and run the float
parser on the result. -/
def parse_action_score (parent : Node) : Except String S :=
  match parent.childNodes with
  | [] => .error "no child"
  | [_] => .error "no child"
  | first :: second :: _ => do
    let int ← withCtx (parse_action_score_part first "int")
      "parse action score int"
    if !strEndsWith int "." then .error "integer part doesn't end with dot"
    else do
      let frac ← withCtx (parse_action_score_part second "frac")
        "parse action score frac"
      let combined := int ++ frac
      orErr (fp combined) "parse f32 from {combined:?}"

/-- `Parser::parse_action_with_scores`: a row must have exactly three
element children — action cell, quality cell, probability cell; the
action identity is resolved from the first cell's children, the two
scores decoded from the other two cells. -/
def parse_action_with_scores (row : Located) :
    Except String (Action × ActionScores S) :=
  match row.node.childNodes.filter Node.isElement with
  | [] => .error "no first child"
  | [_] => .error "no second child"
  | [_, _] => .error "no third child"
  | action :: q :: pi :: rest =>
    if !rest.isEmpty then .error "unexpected more children"
    else do
      let action ← withCtx (parse_action action.childNodes) "parse action"
      let q ← withCtx (parse_action_score fp q) "parse action score"
      let pi ← withCtx (parse_action_score fp pi) "parse action score"
      .ok (action, ⟨q, pi⟩)

/-- `Parser::parse_role`: the role node's first child must be a text
node equal to the expected role label; the role's action identity is
then resolved from its following siblings up to (not including) the
first `details` element. -/
def parse_role (role : Located) (expected_role_name : String) :
    Except String Action := do
  let role_name ← orErr role.node.childNodes.head? "no child"
  let role_name ← orErr role_name.asText "child is not text"
  if role_name != expected_role_name then .error "unexpected role name"
  else
    withCtx
      (parse_action (role.following.takeWhile fun node =>
        match node with
        | .element e _ => e.name != "details"
        | _ => true))
      "parse action"

/-- The tail of `Parser::parse_turn` once exactly two role nodes have
been found: resolve both role actions, parse the scored rows, and record
the index of the first row whose action identity equals each role's. -/
def parse_turn_rest (turn : Located) (player role_mortal : Located) :
    Except String (Turn S) := do
  let player ← withCtx (parse_role player "Player: ") "parse role player"
  let mortal ← withCtx (parse_role role_mortal "Mortal: ") "parse role mortal"
  let actions ← withCtx
    (collectResults (parse_action_with_scores fp)
      (selectUnder turnToActionM turn.node turn.elemIdx turn.ancestors))
    "parse action with scores"
  let playerIdx ← orErr (position (fun a => player == a.1) actions)
    "action not found"
  let mortalIdx ← orErr (position (fun a => mortal == a.1) actions)
    "action not found"
  .ok ⟨playerIdx, mortalIdx, actions.map (·.2)⟩

/-- `Parser::parse_turn`: the `span.role` query must yield exactly two
matches — the player role first, the reference agent second — then
proceed with `parse_turn_rest`. -/
def parse_turn (turn : Located) : Except String (Turn S) :=
  match selectUnder turnToRoleM turn.node turn.elemIdx turn.ancestors with
  | [] => .error "missing player role in turn"
  | [_] => .error "missing mortal role in turn"
  | player :: mortal :: rest =>
    if !rest.isEmpty then .error "unexpected third role in turn"
    else parse_turn_rest fp turn player mortal

/-- `Parser::parse_round`: the heading must carry an `id` attribute and
have a parent that is an element; each match of the turn query on that
parent becomes one turn. -/
def parse_round (h : Located) : Except String (Round S) := do
  let _name ← orErr (match h.node with
    | .element e _ => e.idAttr
    | _ => none) "missing round heading id"
  match h.ancestors with
  | [] => .error "missing round heading parent"
  | (parent, parentIdx) :: anc =>
    if !parent.isElement then .error "wrap round heading parent"
    else do
      let turns ← withCtx
        (collectResults (parse_turn fp)
          (selectUnder roundToTurnM parent parentIdx anc))
        "parse turn"
      .ok ⟨turns⟩

/-- `Parser::parse`: each match of the round-heading query over the
whole document becomes one round. -/
def Parser.parse (doc : List Node) : Except String (Parsed S) := do
  let rounds ← withCtx
    (collectResults (parse_round fp) (selectDoc roundHeadingM doc))
    "parse round"
  .ok ⟨rounds⟩

end

/-! ### Specification-side definitions

These two definitions follow the wording of the specification (§4.3) and
are compared against the source-derived `collectActionElements` /
`parse_action`; they are not translations of source code. -/

/-- Spec §4.3: a node qualifies when it is a text node with
non-whitespace content or an `svg` element; everything else is
skipped. -/
def specQualifies (n : Node) : Bool :=
  match n with
  | .text t => !strIsEmpty (strTrim t)
  | .element e _ => e.name == "svg"
  | .other => false

/-- Spec §4.3: the element contributed by a kept node — the trimmed text
of a qualifying text node, or the decoded tile face of an `svg` element
(nothing if the `svg` fails to decode). -/
def specKeptElement (n : Node) : Option ActionElement :=
  match n with
  | .text t => if strIsEmpty (strTrim t) then none else some (.Text (strTrim t))
  | .element e children =>
    if e.name == "svg" then (parse_svg_action_element e children).toOption.map .Tile
    else none
  | .other => none

/-- `i` is the index of the first row of `rows` whose action identity
equals `a` (spec §4.4-d): row `i` matches and every earlier row does
not. -/
def firstMatchIdx {S : Type} (a : Action)
    (rows : List (Action × ActionScores S)) (i : Nat) : Prop :=
  (∃ x, rows.get? i = some x ∧ x.1 = a) ∧
    ∀ j, j < i → ∀ y, rows.get? j = some y → y.1 ≠ a

/-! ### Concrete documents used by the witnesses -/

/-- The identity instantiation of the abstract float parser: scores stay
the literal strings the decoder produced. -/
def fpString : String → Option String := fun s => some s

/-- A `span` with one class and given children. -/
def spanOf (cls : String) (children : List Node) : Node :=
  .element ⟨"span", none, [cls], []⟩ children

/-- An element with no id, classes or attributes. -/
def elemOf (name : String) (children : List Node) : Node :=
  .element ⟨name, none, [], []⟩ children

/-- A well-formed quality-score cell rendering `1.20`. -/
def wQCell : Node :=
  elemOf "td" [spanOf "int" [.text "1."], spanOf "frac" [.text "20"]]

/-- A well-formed probability-score cell rendering `0.99`. -/
def wPiCell : Node :=
  elemOf "td" [spanOf "int" [.text "0."], spanOf "frac" [.text "99"]]

/-- A score cell with a third element child after two well-shaped
spans. -/
def cexCell : Node :=
  elemOf "td"
    [spanOf "int" [.text "1."], spanOf "frac" [.text "5"], spanOf "x" []]

/-- A score cell whose first child is whitespace text, the two
well-shaped spans only coming after it. -/
def wsCell : Node :=
  elemOf "td"
    [.text "\n  ", spanOf "int" [.text "1."], spanOf "frac" [.text "5"]]

/-- A score cell whose integer-part text is missing the trailing `.`
separator. -/
def noDotCell : Node :=
  elemOf "td" [spanOf "int" [.text "12"], spanOf "frac" [.text "34"]]

/-- A score cell with no children at all. -/
def wEmptyCell : Node := elemOf "td" []

/-- A role-label node. -/
def roleSpan (label : String) : Node :=
  .element ⟨"span", none, ["role"], []⟩ [.text label]

/-- A well-formed `svg` tile with face `t1`. -/
def wSvg : Node :=
  .element ⟨"svg", none, ["tile"], []⟩
    [.element ⟨"use", none, ["face"], [("href", "t1")]⟩ []]

/-- A scored action row: action cell `chi`, quality `1.20`, probability
`0.99`. -/
def wTr : Node := elemOf "tr" [elemOf "td" [.text "chi"], wQCell, wPiCell]

/-- A second scored action row with a structurally identical action
`chi` but different scores (`3.40` / `0.01`). -/
def wTr2 : Node :=
  elemOf "tr" [elemOf "td" [.text "chi"],
    elemOf "td" [spanOf "int" [.text "3."], spanOf "frac" [.text "40"]],
    elemOf "td" [spanOf "int" [.text "0."], spanOf "frac" [.text "01"]]]

/-- The container of the player role mention. -/
def wPlayerDiv : Node := elemOf "div" [roleSpan "Player: ", .text " chi "]

/-- The container of the reference-agent role mention. -/
def wMortalDiv : Node := elemOf "div" [roleSpan "Mortal: ", .text " chi "]

/-- A complete well-formed turn container: two role mentions and a
scored-row table with two rows whose actions are identical. -/
def wTurnNode : Node :=
  .element ⟨"details", none, [], []⟩
    [wPlayerDiv, wMortalDiv, elemOf "table" [elemOf "tbody" [wTr, wTr2]]]

/-- The turn container at a traversal position. -/
def wTurnLoc : Located := ⟨wTurnNode, 1, [], []⟩

/-- The player role mention as the traversal locates it inside
`wTurnNode`. -/
def wPlayerLoc : Located :=
  ⟨roleSpan "Player: ", 1, [(wPlayerDiv, 1), (wTurnNode, 1)], [.text " chi "]⟩

/-- The reference-agent role mention as the traversal locates it inside
`wTurnNode`. -/
def wMortalLoc : Located :=
  ⟨roleSpan "Mortal: ", 1, [(wMortalDiv, 2), (wTurnNode, 1)], [.text " chi "]⟩

/-- The action identity `chi` shared by the role mentions and both
rows. -/
def wAction : Action := ⟨[.Text "chi"]⟩

/-- The scored rows of `wTurnNode` under the identity float parser. -/
def wScored : List (Action × ActionScores String) :=
  [(wAction, ⟨"1.20", "0.99"⟩), (wAction, ⟨"3.40", "0.01"⟩)]

/-- A turn container with no role mention. -/
def wTurn0 : Node := elemOf "div" []

/-- A turn container with a single role mention. -/
def wTurn1 : Node := elemOf "div" [roleSpan "Player: "]

/-- A turn container with three role mentions. -/
def wTurn3 : Node :=
  elemOf "div" [roleSpan "Player: ", roleSpan "Mortal: ", roleSpan "Xtra: "]

/-- A round heading carrying a round id. -/
def wH1 : Node := .element ⟨"h1", some "r1", ["kyoku-heading"], []⟩ [.text "Round 1"]

/-- The fourth element child of the section: its second element child is
the turn's `details` container. -/
def wDiv4 : Node := elemOf "div" [elemOf "span" [], wTurnNode]

/-- The round section: heading first, the turn container nested in the
fourth child. -/
def wSection : Node :=
  elemOf "section" [wH1, elemOf "div" [], elemOf "div" [], wDiv4]

/-- A complete well-formed report document with one round and one
turn. -/
def wDoc : List Node := [elemOf "html" [elemOf "body" [wSection]]]

/-- A document with no round heading at all. -/
def wEmptyDoc : List Node := [elemOf "html" []]

/-- A node sequence for the action resolver mixing qualifying and
non-qualifying nodes: text with content, a comment-like node, a tile,
whitespace-only text. -/
def wActionNodes : List Node :=
  [.text " chi ", .other, wSvg, .text "   "]

/-- A node sequence with no qualifying node at all. -/
def wSkipNodes : List Node := [.text "   ", .other]

/-- A row with only two element children. -/
def wBadRowLoc : Located := ⟨elemOf "tr" [elemOf "td" [], elemOf "td" []], 1, [], []⟩

/-- The well-formed first row at a traversal position. -/
def wTrLoc : Located := ⟨wTr, 1, [], []⟩

/-- The no-role turn container at a traversal position. -/
def wTurn0Loc : Located := ⟨wTurn0, 1, [], []⟩

/-- The one-role turn container at a traversal position. -/
def wTurn1Loc : Located := ⟨wTurn1, 1, [], []⟩

/-- The three-role turn container at a traversal position. -/
def wTurn3Loc : Located := ⟨wTurn3, 1, [], []⟩

/-- The record extracted from the one turn of `wDoc` under the identity
float parser. -/
def wTurnRec : Turn String := ⟨0, 0, [⟨"1.20", "0.99"⟩, ⟨"3.40", "0.01"⟩]⟩

/-- The single round of `wDoc`. -/
def wRoundRec : Round String := ⟨[wTurnRec]⟩

/-- The full record extracted from `wDoc`. -/
def wParsed : Parsed String := ⟨[wRoundRec]⟩

/-! ### Basic lemmas about the result plumbing -/

lemma orErr_ok {o : Option α} {msg : String} {a : α} :
    orErr o msg = .ok a ↔ o = some a := by
  cases o <;> simp [orErr]

lemma orErr_none {msg : String} : orErr (none : Option α) msg = .error msg := rfl

lemma withCtx_ok {r : Except String α} {c : String} {a : α} :
    withCtx r c = .ok a ↔ r = .ok a := by
  cases r <;> simp [withCtx]

lemma withCtx_ok_eq {r : Except String α} {c : String} {a : α}
    (h : r = .ok a) : withCtx r c = .ok a :=
  withCtx_ok.mpr h

lemma withCtx_error {r : Except String α} {c e : String} (h : r = .error e) :
    withCtx r c = .error (c ++ ": " ++ e) := by
  subst h; rfl

lemma bind_ok {r : Except String α} {f : α → Except String β} {b : β} :
    (r >>= f) = .ok b ↔ ∃ a, r = .ok a ∧ f a = .ok b := by
  cases r <;> simp [Bind.bind, Except.bind]

lemma bind_error_of_error {r : Except String α} {f : α → Except String β}
    {e : String} (h : r = .error e) : (r >>= f) = .error e := by
  subst h; rfl

lemma ok_bind {a : α} {f : α → Except String β} :
    (Except.ok a >>= f) = f a := rfl

lemma error_bind {e : String} {f : α → Except String β} :
    ((Except.error e : Except String α) >>= f) = .error e := rfl

lemma collectResults_ok_mem {f : α → Except String β} {xs : List α}
    {ys : List β} (h : collectResults f xs = .ok ys) :
    ∀ y ∈ ys, ∃ x ∈ xs, f x = .ok y := by
  induction xs generalizing ys with
  | nil =>
    simp only [collectResults] at h
    cases h
    intro y hy; cases hy
  | cons x xs ih =>
    simp only [collectResults, bind_ok, pure, Except.pure, Except.ok.injEq] at h
    obtain ⟨b, hb, rest, hrest, hys⟩ := h
    subst hys
    intro y hy
    rcases List.mem_cons.mp hy with hy | hy
    · exact ⟨x, List.mem_cons_self x xs, hy ▸ hb⟩
    · obtain ⟨x', hx', hfx'⟩ := ih hrest y hy
      exact ⟨x', List.mem_cons_of_mem x hx', hfx'⟩

lemma collectResults_nil {f : α → Except String β} :
    collectResults f [] = .ok [] := rfl

lemma position_some_spec {p : α → Bool} {l : List α} {i : Nat}
    (h : position p l = some i) :
    ∃ x, l.get? i = some x ∧ p x = true ∧
      ∀ j, j < i → ∀ y, l.get? j = some y → p y = false := by
  induction l generalizing i with
  | nil => simp [position] at h
  | cons x xs ih =>
    cases hp : p x with
    | true =>
      simp only [position, hp, if_true, Option.some.injEq] at h
      subst h
      exact ⟨x, rfl, hp, fun j hj => absurd hj (Nat.not_lt_zero j)⟩
    | false =>
      simp only [position, hp, Bool.false_eq_true, if_false,
        Option.map_eq_some'] at h
      obtain ⟨i', hi', hsucc⟩ := h
      subst hsucc
      obtain ⟨y, hy, hpy, hbefore⟩ := ih hi'
      refine ⟨y, hy, hpy, ?_⟩
      intro j hj z hz
      cases j with
      | zero =>
        simp only [List.get?] at hz
        cases hz
        exact hp
      | succ j =>
        exact hbefore j (Nat.lt_of_succ_lt_succ hj) z hz

lemma position_lt_length {p : α → Bool} {l : List α} {i : Nat}
    (h : position p l = some i) : i < l.length := by
  obtain ⟨x, hx, -, -⟩ := position_some_spec h
  exact List.get?_eq_some.mp hx |>.1

lemma position_none {p : α → Bool} {l : List α} :
    position p l = none ↔ ∀ x ∈ l, p x = false := by
  induction l with
  | nil => simp [position]
  | cons x xs ih =>
    simp only [position]
    by_cases hp : p x
    · simp [hp]
    · simp [hp, ih, eq_false_of_ne_true hp]

lemma position_isSome_of_mem {p : α → Bool} {l : List α} {x : α}
    (hx : x ∈ l) (hp : p x = true) : ∃ i, position p l = some i := by
  induction l with
  | nil => cases hx
  | cons y ys ih =>
    by_cases hy : p y
    · exact ⟨0, by simp [position, hy]⟩
    · rcases List.mem_cons.mp hx with h | h
      · subst h; exact absurd hp hy
      · obtain ⟨i, hi⟩ := ih h
        exact ⟨i + 1, by simp [position, hy, hi]⟩

/-! ### Inversion lemmas for the parser -/

lemma parse_action_score_part_ok_elem {c : Node} {cls s : String}
    (h : parse_action_score_part c cls = .ok s) : c.isElement = true := by
  cases c <;> simp_all [parse_action_score_part, Node.isElement]

section
variable {S : Type} {fp : String → Option S}

lemma parse_action_score_cons {parent first second : Node}
    {rest : List Node}
    (hc : parent.childNodes = first :: second :: rest) :
    parse_action_score fp parent = (do
      let int ← withCtx (parse_action_score_part first "int")
        "parse action score int"
      if !strEndsWith int "." then
        .error "integer part doesn't end with dot"
      else do
        let frac ← withCtx (parse_action_score_part second "frac")
          "parse action score frac"
        let combined := int ++ frac
        orErr (fp combined) "parse f32 from {combined:?}") := by
  unfold parse_action_score
  rw [hc]

lemma parse_action_score_ok_inv {parent : Node} {v : S}
    (h : parse_action_score fp parent = .ok v) :
    ∃ first second rest int frac,
      parent.childNodes = first :: second :: rest ∧
      parse_action_score_part first "int" = .ok int ∧
      strEndsWith int "." = true ∧
      parse_action_score_part second "frac" = .ok frac ∧
      fp (int ++ frac) = some v := by
  unfold parse_action_score at h
  cases hc : parent.childNodes with
  | nil => rw [hc] at h; cases h
  | cons first rest' =>
    cases rest' with
    | nil => rw [hc] at h; cases h
    | cons second rest =>
      rw [hc] at h
      obtain ⟨int, hint, h⟩ := bind_ok.mp h
      by_cases hdot : strEndsWith int "."
      · simp only [hdot, Bool.not_true, if_false, Bool.false_eq_true] at h
        obtain ⟨frac, hfrac, h⟩ := bind_ok.mp h
        exact ⟨first, second, rest, int, frac, rfl, withCtx_ok.mp hint,
          hdot, withCtx_ok.mp hfrac, orErr_ok.mp h⟩
      · rw [Bool.not_eq_true] at hdot
        simp [hdot] at h

lemma collectActionElements_ok_filterMap {nodes : List Node}
    {elems : List ActionElement}
    (h : collectActionElements nodes = .ok elems) :
    elems = nodes.filterMap specKeptElement := by
  induction nodes generalizing elems with
  | nil =>
    simp only [collectActionElements] at h
    cases h
    rfl
  | cons n rest ih =>
    cases n with
    | text t =>
      by_cases ht : strIsEmpty (strTrim t)
      · simp only [collectActionElements, ht, if_true] at h
        simpa [specKeptElement, ht] using ih h
      · cases hrest : collectActionElements rest with
        | error err => simp [collectActionElements, ht, hrest] at h
        | ok r =>
          simp only [collectActionElements, ht, if_false, hrest,
            Bool.false_eq_true, Except.ok.injEq] at h
          subst h
          simp [specKeptElement, ht, ih hrest]
    | element e children =>
      by_cases he : e.name == "svg"
      · cases hsvg : parse_svg_action_element e children with
        | error err =>
          rw [collectActionElements] at h
          simp only [he, if_true, withCtx_error hsvg] at h
          cases h
        | ok href =>
          cases hrest : collectActionElements rest with
          | error err =>
            rw [collectActionElements] at h
            simp only [he, if_true, withCtx_ok_eq hsvg, hrest] at h
            cases h
          | ok r =>
            rw [collectActionElements] at h
            simp only [he, if_true, withCtx_ok_eq hsvg, hrest,
              Except.ok.injEq] at h
            subst h
            simp [specKeptElement, he, hsvg, Except.toOption, ih hrest]
      · simp only [collectActionElements, he, if_false, Bool.false_eq_true] at h
        simpa [specKeptElement, he] using ih h
    | other =>
      simp only [collectActionElements] at h
      simpa [specKeptElement] using ih h

lemma collectActionElements_skip {nodes : List Node}
    (h : ∀ n ∈ nodes, specQualifies n = false) :
    collectActionElements nodes = .ok [] := by
  induction nodes with
  | nil => rfl
  | cons n rest ih =>
    have hn := h n (List.mem_cons_self n rest)
    have hrest : ∀ x ∈ rest, specQualifies x = false :=
      fun x hx => h x (List.mem_cons_of_mem n hx)
    cases n with
    | text t =>
      simp only [specQualifies, Bool.not_eq_false'] at hn
      simp [collectActionElements, hn, ih hrest]
    | element e children =>
      simp only [specQualifies] at hn
      simp [collectActionElements, hn, ih hrest]
    | other =>
      simp [collectActionElements, ih hrest]

lemma parse_turn_rest_ok_inv {turn p m : Located} {t : Turn S}
    (h : parse_turn_rest fp turn p m = .ok t) :
    ∃ pa ma scored,
      parse_role p "Player: " = .ok pa ∧
      parse_role m "Mortal: " = .ok ma ∧
      collectResults (parse_action_with_scores fp)
        (selectUnder turnToActionM turn.node turn.elemIdx turn.ancestors)
        = .ok scored ∧
      position (fun a => pa == a.1) scored = some t.player ∧
      position (fun a => ma == a.1) scored = some t.mortal ∧
      t.actions = scored.map (·.2) := by
  simp only [parse_turn_rest, bind_ok, pure, Except.pure,
    Except.ok.injEq] at h
  obtain ⟨pa, hpa, ma, hma, scored, hscored, pi, hpi, mi, hmi, ht⟩ := h
  subst ht
  exact ⟨pa, ma, scored, withCtx_ok.mp hpa, withCtx_ok.mp hma,
    withCtx_ok.mp hscored, orErr_ok.mp hpi, orErr_ok.mp hmi, rfl⟩

lemma parse_turn_ok_inv {turn : Located} {t : Turn S}
    (h : parse_turn fp turn = .ok t) :
    ∃ p m, selectUnder turnToRoleM turn.node turn.elemIdx turn.ancestors
        = [p, m] ∧ parse_turn_rest fp turn p m = .ok t := by
  unfold parse_turn at h
  cases hsel : selectUnder turnToRoleM turn.node turn.elemIdx turn.ancestors with
  | nil => rw [hsel] at h; cases h
  | cons p rest =>
    cases rest with
    | nil => rw [hsel] at h; cases h
    | cons m rest' =>
      rw [hsel] at h
      cases rest' with
      | nil => exact ⟨p, m, rfl, by simpa using h⟩
      | cons z zs => simp at h

lemma parse_round_ok_inv {h : Located} {r : Round S}
    (hok : parse_round fp h = .ok r) :
    ∀ t ∈ r.turns, ∃ loc, parse_turn fp loc = .ok t := by
  unfold parse_round at hok
  obtain ⟨nm, hnm, hok⟩ := bind_ok.mp hok
  cases hanc : h.ancestors with
  | nil => rw [hanc] at hok; cases hok
  | cons pa anc =>
    obtain ⟨parent, parentIdx⟩ := pa
    rw [hanc] at hok
    by_cases hel : parent.isElement
    · simp only [hel, Bool.not_true, if_false, Bool.false_eq_true, bind_ok] at hok
      obtain ⟨turns, hturns, hr⟩ := hok
      simp only [pure, Except.pure, Except.ok.injEq] at hr
      subst hr
      intro t ht
      obtain ⟨loc, -, hloc⟩ :=
        collectResults_ok_mem (withCtx_ok.mp hturns) t ht
      exact ⟨loc, hloc⟩
    · simp [hel] at hok

lemma parse_ok_inv {doc : List Node} {parsed : Parsed S}
    (hok : Parser.parse fp doc = .ok parsed) :
    ∀ r ∈ parsed.rounds, ∃ loc, parse_round fp loc = .ok r := by
  unfold Parser.parse at hok
  obtain ⟨rounds, hrounds, hp⟩ := bind_ok.mp hok
  simp only [pure, Except.pure, Except.ok.injEq] at hp
  subst hp
  intro r hr
  obtain ⟨loc, -, hloc⟩ :=
    collectResults_ok_mem (withCtx_ok.mp hrounds) r hr
  exact ⟨loc, hloc⟩

end

/-! ### The claims -/

/-- C9: for every input document in which the round-heading query
matches no node, extraction succeeds and returns a record with an empty
round sequence — an empty query result at the top level is valid and is
not an error. -/
theorem C9_empty_heading_query_ok {S : Type} (fp : String → Option S)
    (doc : List Node) (h : selectDoc roundHeadingM doc = []) :
    Parser.parse fp doc = .ok ⟨[]⟩ := by
  unfold Parser.parse
  rw [h]
  rfl

/-- Witness for C9: a document whose only node is an empty `html`
element parses to the empty record. -/
theorem C9_empty_heading_query_ok_witness :
    Parser.parse fpString wEmptyDoc = .ok ⟨[]⟩ :=
  C9_empty_heading_query_ok fpString wEmptyDoc rfl

/-- C3: in every successfully extracted record, both choice indices of
every turn of every round are valid indices into that turn's action
list (they are naturals, so `0 ≤ index` holds by type, as it does for
`usize` in the source). -/
theorem C3_choice_indices_valid {S : Type} (fp : String → Option S)
    (doc : List Node) (parsed : Parsed S)
    (h : Parser.parse fp doc = .ok parsed) :
    ∀ round ∈ parsed.rounds, ∀ turn ∈ round.turns,
      turn.player < turn.actions.length ∧
        turn.mortal < turn.actions.length := by
  intro round hround turn hturn
  obtain ⟨rloc, hr⟩ := parse_ok_inv h round hround
  obtain ⟨tloc, ht⟩ := parse_round_ok_inv hr turn hturn
  obtain ⟨p, m, -, hrest⟩ := parse_turn_ok_inv ht
  obtain ⟨pa, ma, scored, -, -, -, hpi, hmi, hacts⟩ :=
    parse_turn_rest_ok_inv hrest
  have hlen : turn.actions.length = scored.length := by
    rw [hacts, List.length_map]
  exact ⟨hlen ▸ position_lt_length hpi, hlen ▸ position_lt_length hmi⟩

/-- Witness for C3: the complete example document extracts successfully
and the indices of its one turn are within bounds. -/
theorem C3_choice_indices_valid_witness :
    Parser.parse fpString wDoc = .ok wParsed ∧
    wTurnRec.player < wTurnRec.actions.length ∧
    wTurnRec.mortal < wTurnRec.actions.length :=
  ⟨rfl,
    C3_choice_indices_valid fpString wDoc wParsed rfl wRoundRec
      (by simp [wParsed]) wTurnRec (by simp [wRoundRec])⟩

/-- C8: action identity equality is element-wise and
constructor-sensitive — two actions are equal iff their element lists
have the same length and agree position-wise; a `Text` payload equals a
`Text` payload iff the strings are equal, likewise for `Tile`; and a
text token never equals a tile face with the same spelling.  The
boolean equality used by the row matching agrees with this propositional
equality. -/
theorem C8_identity_equality :
    (∀ a b : Action, a = b ↔ a.elems.length = b.elems.length ∧
      ∀ (i : Nat) (h1 : i < a.elems.length) (h2 : i < b.elems.length),
        a.elems.get ⟨i, h1⟩ = b.elems.get ⟨i, h2⟩) ∧
    (∀ s t : String,
      (ActionElement.Text s = ActionElement.Text t ↔ s = t) ∧
      (ActionElement.Tile s = ActionElement.Tile t ↔ s = t)) ∧
    (∀ s : String, ActionElement.Text s ≠ ActionElement.Tile s) ∧
    (∀ a b : Action, (a == b) = true ↔ a = b) := by
  refine ⟨?_, ?_, ?_, ?_⟩
  · intro a b
    cases a with
    | mk ea =>
      cases b with
      | mk eb =>
        simp only [Action.mk.injEq]
        exact List.ext_get_iff
  · intro s t
    exact ⟨by simp, by simp⟩
  · intro s h
    cases h
  · intro a b
    simp [BEq.beq]

/-- Counterexample to C1 as stated: a score cell with three element
children — so not exactly two — whose first two are well-shaped spans is
not rejected; the decoder succeeds, ignoring the third child. -/
theorem C1_counterexample :
    (cexCell.childNodes.filter Node.isElement).length = 3 ∧
    parse_action_score fpString cexCell = .ok "1.5" :=
  ⟨rfl, rfl⟩

/-- C1 (amended): decoding fails whenever the score node has fewer than
two child nodes, or a non-element node among its first two children;
children beyond the first two are ignored, so a node with more than two
(element) children is not rejected. -/
theorem C1_amended_first_two_shape {S : Type} (fp : String → Option S)
    (parent : Node)
    (h : parent.childNodes.length < 2 ∨
      ∃ c ∈ parent.childNodes.take 2, c.isElement = false) :
    ∃ e, parse_action_score fp parent = .error e := by
  cases hres : parse_action_score fp parent with
  | error e => exact ⟨e, rfl⟩
  | ok v =>
    exfalso
    obtain ⟨first, second, rest, int, frac, hc, hint, -, hfrac, -⟩ :=
      parse_action_score_ok_inv hres
    rcases h with h | ⟨c, hcmem, hcne⟩
    · rw [hc] at h
      simp only [List.length_cons] at h
      omega
    · rw [hc] at hcmem
      simp only [List.take, List.mem_cons, List.not_mem_nil, or_false] at hcmem
      rcases hcmem with rfl | rfl
      · rw [parse_action_score_part_ok_elem hint] at hcne
        cases hcne
      · rw [parse_action_score_part_ok_elem hfrac] at hcne
        cases hcne

/-- Witness for the amended C1: a score cell with no children at all is
rejected. -/
theorem C1_amended_first_two_shape_witness :
    ∃ e, parse_action_score fpString wEmptyCell = .error e :=
  C1_amended_first_two_shape fpString wEmptyCell (Or.inl (by decide))

/-- C5: if the integer-part span decodes but its text does not end with
the literal `.` separator, the decoder fails with the structure error;
and every successful decode comes from an integer part that does end
with `.`, concatenated verbatim with the fractional part and handed to
the float parser. -/
theorem C5_separator_required {S : Type} (fp : String → Option S)
    (parent : Node) :
    (∀ first second rest int,
      parent.childNodes = first :: second :: rest →
      parse_action_score_part first "int" = .ok int →
      strEndsWith int "." = false →
      parse_action_score fp parent
        = .error "integer part doesn't end with dot") ∧
    (∀ v, parse_action_score fp parent = .ok v →
      ∃ first second rest int frac,
        parent.childNodes = first :: second :: rest ∧
        parse_action_score_part first "int" = .ok int ∧
        strEndsWith int "." = true ∧
        parse_action_score_part second "frac" = .ok frac ∧
        fp (int ++ frac) = some v) := by
  constructor
  · intro first second rest int hc hint hdot
    rw [parse_action_score_cons hc, withCtx_ok_eq hint]
    simp [hdot, Bind.bind, Except.bind]
  · intro v hv
    exact parse_action_score_ok_inv hv

/-- Witness for C5: the missing-separator cell fails with the exact
structure error, and the well-formed cell decodes to the verbatim
concatenation `1.20`. -/
theorem C5_separator_required_witness :
    parse_action_score fpString noDotCell
      = .error "integer part doesn't end with dot" ∧
    (∃ first second rest int frac,
      wQCell.childNodes = first :: second :: rest ∧
      parse_action_score_part first "int" = .ok int ∧
      strEndsWith int "." = true ∧
      parse_action_score_part second "frac" = .ok frac ∧
      fpString (int ++ frac) = some "1.20") :=
  ⟨(C5_separator_required fpString noDotCell).1 _ _ [] "12" rfl rfl rfl,
    (C5_separator_required fpString wQCell).2 "1.20" rfl⟩

/-- C10: the score decoder inspects the literal first two child nodes
without skipping non-element nodes — whenever the first or second child
is a non-element node the decode fails, whatever comes after them. -/
theorem C10_literal_first_two_children {S : Type} (fp : String → Option S)
    (parent first second : Node) (rest : List Node)
    (hc : parent.childNodes = first :: second :: rest)
    (hne : first.isElement = false ∨ second.isElement = false) :
    ∃ e, parse_action_score fp parent = .error e := by
  cases hres : parse_action_score fp parent with
  | error e => exact ⟨e, rfl⟩
  | ok v =>
    exfalso
    obtain ⟨first', second', rest', int, frac, hc', hint, -, hfrac, -⟩ :=
      parse_action_score_ok_inv hres
    rw [hc] at hc'
    obtain ⟨rfl, rfl, rfl⟩ : first = first' ∧ second = second' ∧ rest = rest' := by
      injection hc' with h1 h2
      injection h2 with h2 h3
      exact ⟨h1, h2, h3⟩
    rcases hne with hne | hne
    · rw [parse_action_score_part_ok_elem hint] at hne
      cases hne
    · rw [parse_action_score_part_ok_elem hfrac] at hne
      cases hne

/-- Witness for C10: a cell whose first child is whitespace text fails
even though two correctly shaped `int`/`frac` spans follow it. -/
theorem C10_literal_first_two_children_witness :
    ∃ e, parse_action_score fpString wsCell = .error e :=
  C10_literal_first_two_children fpString wsCell (.text "\n  ")
    (spanOf "int" [.text "1."]) [spanOf "frac" [.text "5"]] rfl
    (Or.inl rfl)

/-- C4: a successfully resolved action keeps exactly the text nodes
with non-whitespace content (contributing their trimmed text) and the
decoded `svg` elements, in document order, and is never the empty
sequence; and when no node of the input qualifies, resolution fails
with the empty-action error. -/
theorem C4_resolver_keeps_qualifying (nodes : List Node) :
    (∀ a, parse_action nodes = .ok a →
      a.elems = nodes.filterMap specKeptElement ∧ a.elems ≠ []) ∧
    ((∀ n ∈ nodes, specQualifies n = false) →
      parse_action nodes = .error "empty action") := by
  constructor
  · intro a ha
    unfold parse_action at ha
    obtain ⟨elems, helems, hres⟩ := bind_ok.mp ha
    by_cases he : elems.isEmpty
    · simp [he] at hres
    · simp only [he, if_false, Bool.false_eq_true, pure, Except.pure,
        Except.ok.injEq] at hres
      subst hres
      refine ⟨collectActionElements_ok_filterMap helems, ?_⟩
      cases elems with
      | nil => simp [List.isEmpty] at he
      | cons x xs => simp
  · intro h
    unfold parse_action
    rw [collectActionElements_skip h]
    rfl

/-- Witness for C4: a mixed node sequence resolves to exactly its
qualifying nodes in order, and an all-skipped sequence fails with the
empty-action error. -/
theorem C4_resolver_keeps_qualifying_witness :
    parse_action wActionNodes = .ok ⟨[.Text "chi", .Tile "t1"]⟩ ∧
    ([.Text "chi", .Tile "t1"] : List ActionElement)
      = wActionNodes.filterMap specKeptElement ∧
    parse_action wSkipNodes = .error "empty action" :=
  ⟨rfl,
    ((C4_resolver_keeps_qualifying wActionNodes).1 ⟨[.Text "chi", .Tile "t1"]⟩ rfl).1,
    (C4_resolver_keeps_qualifying wSkipNodes).2 (by decide)⟩

/-- C6: a matched action row with a number of element children other
than three fails with one of the row-shape errors; with exactly three,
the action identity is resolved from the first cell's children and the
quality and probability scores are decoded from the second and third
cells, producing the scored action. -/
theorem C6_row_shape {S : Type} (fp : String → Option S) (row : Located) :
    ((row.node.childNodes.filter Node.isElement).length ≠ 3 →
      ∃ e, parse_action_with_scores fp row = .error e ∧
        (e = "no first child" ∨ e = "no second child" ∨
          e = "no third child" ∨ e = "unexpected more children")) ∧
    (∀ action q pi,
      row.node.childNodes.filter Node.isElement = [action, q, pi] →
      parse_action_with_scores fp row = (do
        let a ← withCtx (parse_action action.childNodes) "parse action"
        let qv ← withCtx (parse_action_score fp q) "parse action score"
        let piv ← withCtx (parse_action_score fp pi) "parse action score"
        .ok (a, ⟨qv, piv⟩))) := by
  constructor
  · intro hlen
    unfold parse_action_with_scores
    cases hf : row.node.childNodes.filter Node.isElement with
    | nil => exact ⟨"no first child", rfl, Or.inl rfl⟩
    | cons action t1 =>
      cases t1 with
      | nil => exact ⟨"no second child", rfl, Or.inr (Or.inl rfl)⟩
      | cons q t2 =>
        cases t2 with
        | nil => exact ⟨"no third child", rfl, Or.inr (Or.inr (Or.inl rfl))⟩
        | cons pi rest =>
          cases rest with
          | nil => rw [hf] at hlen; simp at hlen
          | cons r rs =>
            exact ⟨"unexpected more children", rfl,
              Or.inr (Or.inr (Or.inr rfl))⟩
  · intro action q pi hf
    unfold parse_action_with_scores
    rw [hf]
    rfl

/-- Witness for C6: a two-cell row fails with a shape error; the
well-formed three-cell row decodes its cells in order. -/
theorem C6_row_shape_witness :
    (∃ e, parse_action_with_scores fpString wBadRowLoc = .error e ∧
      (e = "no first child" ∨ e = "no second child" ∨
        e = "no third child" ∨ e = "unexpected more children")) ∧
    parse_action_with_scores fpString wTrLoc
      = .ok (wAction, ⟨"1.20", "0.99"⟩) :=
  ⟨(C6_row_shape fpString wBadRowLoc).1 (by decide),
    ((C6_row_shape fpString wTrLoc).2 (elemOf "td" [.text "chi"]) wQCell
      wPiCell rfl).trans rfl⟩

/-- C7: with no role match the turn fails with the missing-player
error, with exactly one it fails with the missing-mortal error, with
three or more it fails with the unexpected-third-role error; with
exactly two, the first match is parsed as the player role and the
second as the reference agent ("Mortal") role. -/
theorem C7_exactly_two_roles {S : Type} (fp : String → Option S)
    (turn : Located) :
    (selectUnder turnToRoleM turn.node turn.elemIdx turn.ancestors = [] →
      parse_turn fp turn = .error "missing player role in turn") ∧
    (∀ p, selectUnder turnToRoleM turn.node turn.elemIdx turn.ancestors
        = [p] →
      parse_turn fp turn = .error "missing mortal role in turn") ∧
    (∀ p m r rs, selectUnder turnToRoleM turn.node turn.elemIdx
        turn.ancestors = p :: m :: r :: rs →
      parse_turn fp turn = .error "unexpected third role in turn") ∧
    (∀ p m, selectUnder turnToRoleM turn.node turn.elemIdx turn.ancestors
        = [p, m] →
      parse_turn fp turn = (do
        let player ← withCtx (parse_role p "Player: ") "parse role player"
        let mortal ← withCtx (parse_role m "Mortal: ") "parse role mortal"
        let actions ← withCtx
          (collectResults (parse_action_with_scores fp)
            (selectUnder turnToActionM turn.node turn.elemIdx
              turn.ancestors))
          "parse action with scores"
        let playerIdx ← orErr (position (fun a => player == a.1) actions)
          "action not found"
        let mortalIdx ← orErr (position (fun a => mortal == a.1) actions)
          "action not found"
        .ok ⟨playerIdx, mortalIdx, actions.map (·.2)⟩)) := by
  refine ⟨?_, ?_, ?_, ?_⟩
  · intro hsel
    unfold parse_turn
    rw [hsel]
  · intro p hsel
    unfold parse_turn
    rw [hsel]
  · intro p m r rs hsel
    unfold parse_turn
    rw [hsel]
    rfl
  · intro p m hsel
    unfold parse_turn
    rw [hsel]
    rfl

/-- Witness for C7: concrete turns with zero, one, three and two role
matches, the last extracting with the first match as player. -/
theorem C7_exactly_two_roles_witness :
    parse_turn fpString wTurn0Loc = .error "missing player role in turn" ∧
    parse_turn fpString wTurn1Loc = .error "missing mortal role in turn" ∧
    parse_turn fpString wTurn3Loc
      = .error "unexpected third role in turn" ∧
    parse_turn fpString wTurnLoc = .ok wTurnRec :=
  ⟨(C7_exactly_two_roles fpString wTurn0Loc).1 rfl,
    (C7_exactly_two_roles fpString wTurn1Loc).2.1
      ⟨roleSpan "Player: ", 1, [(wTurn1, 1)], []⟩ rfl,
    (C7_exactly_two_roles fpString wTurn3Loc).2.2.1
      ⟨roleSpan "Player: ", 1, [(wTurn3, 1)],
        [roleSpan "Mortal: ", roleSpan "Xtra: "]⟩
      ⟨roleSpan "Mortal: ", 2, [(wTurn3, 1)], [roleSpan "Xtra: "]⟩
      ⟨roleSpan "Xtra: ", 3, [(wTurn3, 1)], []⟩ [] rfl,
    ((C7_exactly_two_roles fpString wTurnLoc).2.2.2 wPlayerLoc wMortalLoc
      rfl).trans rfl⟩

/-- C2: once both role actions are resolved and the scored rows parsed,
a successful turn records as `playerChoice`/`referenceChoice` the index
of the first row whose action identity equals the player's/reference's
resolved action; if no row matches either role the turn fails with the
action-not-found error; with several identical rows the first match is
silently picked (the first-match property below). -/
theorem C2_first_matching_row {S : Type} (fp : String → Option S)
    (turn p m : Located) (pa ma : Action)
    (scored : List (Action × ActionScores S))
    (hroles : selectUnder turnToRoleM turn.node turn.elemIdx turn.ancestors
      = [p, m])
    (hp : parse_role p "Player: " = .ok pa)
    (hm : parse_role m "Mortal: " = .ok ma)
    (hrows : collectResults (parse_action_with_scores fp)
      (selectUnder turnToActionM turn.node turn.elemIdx turn.ancestors)
      = .ok scored) :
    (∀ t, parse_turn fp turn = .ok t →
      firstMatchIdx pa scored t.player ∧ firstMatchIdx ma scored t.mortal ∧
      t.actions = scored.map (·.2)) ∧
    ((∀ x ∈ scored, x.1 ≠ pa) →
      parse_turn fp turn = .error "action not found") ∧
    ((∃ x ∈ scored, x.1 = pa) → (∀ x ∈ scored, x.1 ≠ ma) →
      parse_turn fp turn = .error "action not found") := by
  have hturn : parse_turn fp turn = parse_turn_rest fp turn p m := by
    unfold parse_turn
    rw [hroles]
    rfl
  refine ⟨?_, ?_, ?_⟩
  · intro t ht
    rw [hturn] at ht
    obtain ⟨pa', ma', scored', hp', hm', hrows', hpi, hmi, hacts⟩ :=
      parse_turn_rest_ok_inv ht
    obtain rfl : pa = pa' := by
      have := hp.symm.trans hp'
      exact (Except.ok.injEq _ _).mp this
    obtain rfl : ma = ma' := by
      have := hm.symm.trans hm'
      exact (Except.ok.injEq _ _).mp this
    obtain rfl : scored = scored' := by
      have := hrows.symm.trans hrows'
      exact (Except.ok.injEq _ _).mp this
    refine ⟨?_, ?_, hacts⟩
    · obtain ⟨x, hx, hpx, hbefore⟩ := position_some_spec hpi
      refine ⟨⟨x, hx, ?_⟩, ?_⟩
      · simpa [BEq.beq, eq_comm] using hpx
      · intro j hj y hy heq
        have := hbefore j hj y hy
        simp [BEq.beq, heq] at this
    · obtain ⟨x, hx, hpx, hbefore⟩ := position_some_spec hmi
      refine ⟨⟨x, hx, ?_⟩, ?_⟩
      · simpa [BEq.beq, eq_comm] using hpx
      · intro j hj y hy heq
        have := hbefore j hj y hy
        simp [BEq.beq, heq] at this
  · intro hnone
    have hpos : position (fun a => pa == a.1) scored = none := by
      rw [position_none]
      intro x hx
      simpa [BEq.beq] using (hnone x hx).symm
    rw [hturn]
    unfold parse_turn_rest
    simp only [withCtx_ok_eq hp, withCtx_ok_eq hm, withCtx_ok_eq hrows,
      ok_bind, hpos, orErr_none, error_bind]
  · intro hsome hnone
    obtain ⟨x, hx, hxe⟩ := hsome
    obtain ⟨i, hpos⟩ :=
      position_isSome_of_mem (p := fun a => pa == a.1) hx
        (by simp [BEq.beq, hxe])
    have hposMa : position (fun a => ma == a.1) scored = none := by
      rw [position_none]
      intro y hy
      simpa [BEq.beq] using (hnone y hy).symm
    rw [hturn]
    unfold parse_turn_rest
    simp only [withCtx_ok_eq hp, withCtx_ok_eq hm, withCtx_ok_eq hrows,
      ok_bind, hpos, hposMa, orErr_none, orErr, error_bind]

/-- Witness for C2: the two-row turn whose rows carry structurally
identical actions extracts with both choices at index 0, the first
match. -/
theorem C2_first_matching_row_witness :
    firstMatchIdx wAction wScored 0 ∧ firstMatchIdx wAction wScored 0 ∧
    wTurnRec.actions = wScored.map (·.2) :=
  (C2_first_matching_row fpString wTurnLoc wPlayerLoc wMortalLoc wAction
    wAction wScored rfl rfl rfl rfl).1 wTurnRec rfl

end Mjai
